import Mathlib

/-!
Shallow embedding of `src/v3/src/sound/BaseSoundManager.js` (Phaser v3 base
sound manager) and proofs about it.

Modelling conventions:
* JS numbers are modelled as rationals (`JSNum`).
* A `Sound` is the manager-visible value of an `ISound` object: its identity
  (`id`, standing for JS object identity), its asset `key`, and its mutable
  flags.  Two fields are modelled from the spec because the sound class
  itself is outside the analysed file: `destroyed` (the sound's own
  `destroy` has run; per the spec a sound sets its `pendingRemove` flag
  exactly when its backend resource is gone, i.e. when it has been
  destroyed) and `endedOnceArmed` (a one-shot `SOUND_ENDED` subscription
  installed by `play`/`playAudioSprite` is still armed).
* Calls the manager makes on external collaborators (per-sound transport
  operations, `addMarker`, event dispatches, handler invocations) are
  recorded in an `Effect` trace, in call order.
* `this.game = null` / `this.events = null` / `this.sounds = null` after
  `destroy` are modelled by `gameAttached := false`, `eventsAlive := false`
  and an empty registry.
-/

/-- JS numbers, modelled as rationals. -/
abbrev JSNum := Rat

/-- An uninterpreted `ISoundConfig` payload; only its identity matters here. -/
abbrev SoundConfig := Nat

/-- Manager-visible state of one sound object.  `id` models JS object
identity (`===`); `key` is the asset key; `pendingRemove` is the flag the
sound sets when it is gone; `destroyed` and `endedOnceArmed` are modelled
from the spec (see module docstring). -/
structure Sound where
  id : Nat
  key : String
  pendingRemove : Bool
  destroyed : Bool
  endedOnceArmed : Bool
deriving DecidableEq

/-- A marker record as passed to `sound.addMarker` by `addAudioSprite`:
`{name, start, duration: end - start, config}`. -/
structure Marker where
  name : String
  start : JSNum
  duration : JSNum
  config : Option SoundConfig
deriving DecidableEq

/-- One own-property entry of the `spritemap` object from the JSON cache
(the `hasOwnProperty` guard in the source skips inherited entries; the
list holds exactly the own entries, so no guard is needed here).
`endTime` stands for the `end` field (`end` is reserved in Lean). -/
structure SpriteEntry where
  name : String
  start : JSNum
  endTime : JSNum
deriving DecidableEq

/-- The `extra` argument of `play`: a JS object that either carries a truthy
`name` field (`name = some n`, marker descriptor) or not (`name = none`,
plain config).  `payload` is the rest of the object, uninterpreted. -/
structure ExtraObj where
  name : Option String
  payload : Nat
deriving DecidableEq

/-- Events dispatched on the manager's own event channel
(`SoundEvent` / `SoundValueEvent`). -/
inductive ManagerEvent where
  | SOUND_PAUSE
  | SOUND_RESUME
  | SOUND_STOP
  | SOUND_RATE (value : JSNum)
  | SOUND_DETUNE (value : JSNum)
deriving DecidableEq

/-- The argument shapes of the external `sound.play(...)` call. -/
inductive PlayCallArg where
  | noArgs
  | markerName (name : String)
  | configArg (cfg : ExtraObj)
  | nameAndConfig (name : String) (cfg : Option SoundConfig)
deriving DecidableEq

/-- One externally visible call made by the manager, in call order. -/
inductive Effect where
  | pauseSound (s : Sound)
  | resumeSound (s : Sound)
  | stopSound (s : Sound)
  /-- `sound.setRate()`; the hook reads the manager's current global rate
  and detune, recorded here as observed at call time. -/
  | setRateSound (s : Sound) (globalRate globalDetune : JSNum)
  | destroySound (s : Sound)
  | updateSound (s : Sound) (time delta : JSNum)
  /-- `sound.addMarker({name, start, duration, config})` in `addAudioSprite`. -/
  | addMarkerSound (sid : Nat) (m : Marker)
  /-- `sound.addMarker(extra)` in `play`. -/
  | addMarkerExtra (sid : Nat) (e : ExtraObj)
  | playSound (sid : Nat) (arg : PlayCallArg)
  /-- `sound.events.once('SOUND_ENDED', sound.destroy.bind(sound))`. -/
  | onceEnded (sid : Nat)
  | dispatch (e : ManagerEvent)
  /-- `this.events.destroy()`. -/
  | destroyEvents
  | onBlurCall
  | onFocusCall
deriving DecidableEq

/-- Manager state (`BaseSoundManager`).  `_rate` / `_detune` are the private
backing fields of the `rate` / `detune` accessors. -/
structure BaseSoundManager where
  gameAttached : Bool
  eventsAlive : Bool
  sounds : List Sound
  mute : Bool
  volume : JSNum
  pauseOnBlur : Bool
  _rate : JSNum
  _detune : JSNum

/-- The ids of the registered sounds, in registry order. -/
def soundIds (m : BaseSoundManager) : List Nat :=
  m.sounds.map (·.id)

/-- The `game.events` channel, reduced to the handlers this manager
installed on it: the constructor body runs `game.events.on('ON_BLUR', ...)`
and `game.events.on('ON_FOCUS', ...)` once each, and nothing in the file
ever removes them. -/
structure GameEventsChannel where
  blurSubs : Nat
  focusSubs : Nat
deriving DecidableEq

/-- Manager construction (the `initialize` body): default fields, plus one
blur and one focus subscription added to the game's channel. -/
def newBaseSoundManager : BaseSoundManager :=
  { gameAttached := true
    eventsAlive := true
    sounds := []
    mute := false
    volume := 1
    pauseOnBlur := true
    _rate := 1
    _detune := 0 }

/-- The subscriptions the constructor installs on `game.events`. -/
def subscribeOnGame (ch : GameEventsChannel) : GameEventsChannel :=
  { blurSubs := ch.blurSubs + 1, focusSubs := ch.focusSubs + 1 }

/-- Delivering an `ON_BLUR` signal: every installed handler runs
`function () { if (this.pauseOnBlur) { this.onBlur(); } }`. -/
def deliverBlur (ch : GameEventsChannel) (m : BaseSoundManager) : List Effect :=
  if m.pauseOnBlur then List.replicate ch.blurSubs .onBlurCall else []

/-- Delivering an `ON_FOCUS` signal, symmetric to `deliverBlur`. -/
def deliverFocus (ch : GameEventsChannel) (m : BaseSoundManager) : List Effect :=
  if m.pauseOnBlur then List.replicate ch.focusSubs .onFocusCall else []

/-- `forEachActiveSound(callbackfn)`: iterate the registry in order and call
the callback on every sound whose `pendingRemove` flag is not set; here the
callback produces one trace entry per visited sound. -/
def forEachActiveSound (m : BaseSoundManager) (f : Sound → Effect) : List Effect :=
  (m.sounds.filter (fun s => !s.pendingRemove)).map f

/-- The `rate` getter: `return this._rate`. -/
def BaseSoundManager.rate (m : BaseSoundManager) : JSNum :=
  m._rate

/-- The `detune` getter: `return this._detune`. -/
def BaseSoundManager.detune (m : BaseSoundManager) : JSNum :=
  m._detune

/-- The `rate` setter: store the value in `_rate`, then call `setRate()` on
every active sound (which reads the already-updated globals), then dispatch
one `SoundValueEvent(this, 'SOUND_RATE', value)`. -/
def setRate (m : BaseSoundManager) (value : JSNum) :
    BaseSoundManager × List Effect :=
  let m' := { m with _rate := value }
  (m', forEachActiveSound m' (fun s => .setRateSound s m'._rate m'._detune)
        ++ [.dispatch (.SOUND_RATE value)])

/-- The `detune` setter: store the value in `_detune`, then call `setRate()`
on every active sound, then dispatch `SOUND_DETUNE` with the value. -/
def setDetune (m : BaseSoundManager) (value : JSNum) :
    BaseSoundManager × List Effect :=
  let m' := { m with _detune := value }
  (m', forEachActiveSound m' (fun s => .setRateSound s m'._rate m'._detune)
        ++ [.dispatch (.SOUND_DETUNE value)])

/-- Modelled from the spec: `add` is abstract (`NOOP`) in this file; per the
spec the concrete backend instantiates a fresh sound from the asset key,
configures it, registers it (append order) and returns it.  `newId` stands
for the fresh object identity; backend-specific use of the config is not
modelled. -/
def add (m : BaseSoundManager) (key : String) (newId : Nat) :
    BaseSoundManager × Sound :=
  let s : Sound :=
    { id := newId, key := key, pendingRemove := false
      destroyed := false, endedOnceArmed := false }
  ({ m with sounds := m.sounds ++ [s] }, s)

/-- Arm the one-shot `SOUND_ENDED` subscription on the registered sound with
the given id (`sound.events.once('SOUND_ENDED', sound.destroy.bind(sound))`). -/
def armOnceEnded (m : BaseSoundManager) (sid : Nat) : BaseSoundManager :=
  { m with sounds :=
      m.sounds.map (fun s =>
        if s.id = sid then { s with endedOnceArmed := true } else s) }

/-- `play(key, extra?)`: create a sound via `add`, install the one-shot
auto-destroy subscription, then branch on `extra`:
a truthy `name` field means `addMarker(extra); play(extra.name)`, otherwise
`play(extra)`, and with no `extra` just `play()`.  The sound is registered
but not returned. -/
def play (m : BaseSoundManager) (key : String) (extra : Option ExtraObj)
    (newId : Nat) : BaseSoundManager × List Effect :=
  let (m1, sound) := add m key newId
  let m2 := armOnceEnded m1 sound.id
  let playEffs : List Effect :=
    match extra with
    | some e =>
      match e.name with
      | some n => [.addMarkerExtra sound.id e, .playSound sound.id (.markerName n)]
      | none => [.playSound sound.id (.configArg e)]
    | none => [.playSound sound.id .noArgs]
  (m2, .onceEnded sound.id :: playEffs)

/-- `addAudioSprite(key, config?)`: create via `add(key, config)`, attach the
cache's spritemap for that key, and register one marker per own spritemap
entry with `duration = end - start` and the given config.  Returns the
updated manager, the sound's id and the trace. -/
def addAudioSprite (cache : String → List SpriteEntry) (m : BaseSoundManager)
    (key : String) (config : Option SoundConfig) (newId : Nat) :
    BaseSoundManager × Nat × List Effect :=
  let (m1, sound) := add m key newId
  (m1, sound.id,
    (cache key).map (fun e =>
      .addMarkerSound sound.id
        { name := e.name, start := e.start
          duration := e.endTime - e.start, config := config }))

/-- `playAudioSprite(key, spriteName, config?)`: create via
`addAudioSprite(key)` — note the config is **not** forwarded to
`addAudioSprite` — install the one-shot auto-destroy subscription, then
`sound.play(spriteName, config)`. -/
def playAudioSprite (cache : String → List SpriteEntry) (m : BaseSoundManager)
    (key : String) (spriteName : String) (config : Option SoundConfig)
    (newId : Nat) : BaseSoundManager × List Effect :=
  let (m1, sid, markerEffs) := addAudioSprite cache m key none newId
  let m2 := armOnceEnded m1 sid
  (m2, markerEffs ++ [.onceEnded sid, .playSound sid (.nameAndConfig spriteName config)])

/-- `remove(sound)`: `indexOf` locates the sound by identity (`!== -1` is
exactly membership); if present, `sound.destroy()` then `splice(index, 1)`
(erase the first occurrence) and return true, else return false. -/
def remove (m : BaseSoundManager) (sound : Sound) :
    BaseSoundManager × List Effect × Bool :=
  if sound ∈ m.sounds then
    ({ m with sounds := m.sounds.erase sound }, [.destroySound sound], true)
  else
    (m, [], false)

/-- The body of `removeByKey`'s backward index loop
(`for (i = length-1; i >= 0; i--)` with `splice(i, 1)` on a key match):
the recursion handles the tail (the higher indices) first, then index 0,
so destroy calls are recorded from the last match to the first.
Returns the surviving list, the trace and the removal count. -/
def removeByKeyGo (key : String) : List Sound → List Sound × List Effect × Nat
  | [] => ([], [], 0)
  | s :: rest =>
    let (survivors, effs, n) := removeByKeyGo key rest
    if s.key = key then (survivors, effs ++ [.destroySound s], n + 1)
    else (s :: survivors, effs, n)

/-- `removeByKey(key)`: run the backward scan over the registry. -/
def removeByKey (m : BaseSoundManager) (key : String) :
    BaseSoundManager × List Effect × Nat :=
  let (survivors, effs, n) := removeByKeyGo key m.sounds
  ({ m with sounds := survivors }, effs, n)

/-- `pauseAll()`: `pause()` on every active sound, then dispatch one
`SoundEvent(this, 'SOUND_PAUSE')`. -/
def pauseAll (m : BaseSoundManager) : List Effect :=
  forEachActiveSound m .pauseSound ++ [.dispatch .SOUND_PAUSE]

/-- `resumeAll()`: `resume()` on every active sound, then one `SOUND_RESUME`. -/
def resumeAll (m : BaseSoundManager) : List Effect :=
  forEachActiveSound m .resumeSound ++ [.dispatch .SOUND_RESUME]

/-- `stopAll()`: `stop()` on every active sound, then one `SOUND_STOP`. -/
def stopAll (m : BaseSoundManager) : List Effect :=
  forEachActiveSound m .stopSound ++ [.dispatch .SOUND_STOP]

/-- The reap pass of `update`: the backward index loop splices out every
sound whose `pendingRemove` flag is set (going backwards, a splice at `i`
leaves indices below `i` untouched, so no element is skipped); the
recursion handles the tail first, mirroring the loop. -/
def reapPending : List Sound → List Sound
  | [] => []
  | s :: rest =>
    let tail := reapPending rest
    if s.pendingRemove then tail else s :: tail

/-- `update(time, delta)`: reap every sound flagged `pendingRemove` (without
destroying it — it is already gone), then `sound.update(time, delta)` on
each survivor in order.  `tick` is the abstract per-sound update, which may
mutate the sound's own state (a sound mutates only itself, per the spec's
ownership rule, so the registry after the frame holds the ticked
survivors). -/
def update (m : BaseSoundManager) (tick : Sound → JSNum → JSNum → Sound)
    (time delta : JSNum) : BaseSoundManager × List Effect :=
  let survivors := reapPending m.sounds
  ({ m with sounds := survivors.map (fun s => tick s time delta) },
    survivors.map (fun s => .updateSound s time delta))

/-- `destroy()`: `this.game = null`, `this.events.destroy()`,
`this.events = null`, `destroy()` on every active sound, `this.sounds = null`. -/
def destroy (m : BaseSoundManager) : BaseSoundManager × List Effect :=
  ({ m with gameAttached := false, eventsAlive := false, sounds := [] },
    .destroyEvents :: forEachActiveSound m .destroySound)

/-- Modelled from the spec: delivering `SOUND_ENDED` on a sound's own
channel fires its one-shot auto-destroy subscription if armed — the sound's
`destroy` runs (marking it destroyed and `pendingRemove`, i.e. gone) and
the subscription is disarmed, never re-armed. -/
def deliverSoundEnded (m : BaseSoundManager) (sid : Nat) :
    BaseSoundManager × List Effect :=
  ({ m with sounds :=
      m.sounds.map (fun s =>
        if s.id = sid && s.endedOnceArmed then
          { s with endedOnceArmed := false, destroyed := true, pendingRemove := true }
        else s) },
    (m.sounds.filter (fun s => s.id = sid && s.endedOnceArmed)).map .destroySound)

/-- One manager operation, for reasoning about operation sequences. -/
inductive MOp where
  | addOp (key : String) (newId : Nat)
  | removeOp (s : Sound)
  | removeByKeyOp (key : String)
  | updateOp (time delta : JSNum)
  | endedOp (sid : Nat)
deriving DecidableEq

/-- Execute one operation; `tick` is the abstract per-sound update used by
`updateOp`. -/
def stepOp (tick : Sound → JSNum → JSNum → Sound) (m : BaseSoundManager) :
    MOp → BaseSoundManager × List Effect
  | .addOp key nid => ((add m key nid).1, [])
  | .removeOp s =>
    let r := remove m s
    (r.1, r.2.1)
  | .removeByKeyOp key =>
    let r := removeByKey m key
    (r.1, r.2.1)
  | .updateOp t dt => update m tick t dt
  | .endedOp sid => deliverSoundEnded m sid

/-- Run a sequence of operations. -/
def runOps (tick : Sound → JSNum → JSNum → Sound) (m : BaseSoundManager) :
    List MOp → BaseSoundManager
  | [] => m
  | op :: rest => runOps tick (stepOp tick m op).1 rest

/-- Number of sound registrations an operation performs. -/
def opAdds : MOp → Nat
  | .addOp _ _ => 1
  | _ => 0

/-- Number of sounds an operation destroys-and-removes
(a successful `remove`, and the count returned by `removeByKey`). -/
def opRemoved (m : BaseSoundManager) : MOp → Nat
  | .removeOp s => if s ∈ m.sounds then 1 else 0
  | .removeByKeyOp key => (removeByKey m key).2.2
  | _ => 0

/-- Number of sounds an `update` operation reaps. -/
def opReaped (m : BaseSoundManager) : MOp → Nat
  | .updateOp _ _ => m.sounds.length - (reapPending m.sounds).length
  | _ => 0

/-- Bookkeeping over a run: the final state, the number of sound
registrations, the number of sounds destroyed-and-removed by
`remove`/`removeByKey` (successful removals), and the number of sounds
reaped by `update`. -/
def runCount (tick : Sound → JSNum → JSNum → Sound) (m : BaseSoundManager) :
    List MOp → BaseSoundManager × Nat × Nat × Nat
  | [] => (m, 0, 0, 0)
  | op :: rest =>
    let r := runCount tick (stepOp tick m op).1 rest
    (r.1, opAdds op + r.2.1, opRemoved m op + r.2.2.1, opReaped m op + r.2.2.2)

/-- The ids carried by the `addOp`s of an operation list, in order. -/
def addIds : List MOp → List Nat
  | [] => []
  | .addOp _ nid :: rest => nid :: addIds rest
  | _ :: rest => addIds rest

/-- A manager with the given registry and all other fields at their
constructor defaults, for concrete examples. -/
def mkMgr (l : List Sound) : BaseSoundManager :=
  { gameAttached := true, eventsAlive := true, sounds := l, mute := false
    volume := 1, pauseOnBlur := true, _rate := 1, _detune := 0 }

/-- A per-sound update that sets the sound's own `pendingRemove` flag, for
concrete examples. -/
def tickFlag : Sound → JSNum → JSNum → Sound :=
  fun s _ _ => { s with pendingRemove := true }

/-! ## Helper lemmas -/

theorem removeByKeyGo_survivors (key : String) (l : List Sound) :
    (removeByKeyGo key l).1 = l.filter (fun s => decide (s.key ≠ key)) := by
  induction l with
  | nil => rfl
  | cons s rest ih =>
    simp only [removeByKeyGo, List.filter_cons]
    by_cases h : s.key = key <;> simp [h, ih]

theorem removeByKeyGo_trace (key : String) (l : List Sound) :
    (removeByKeyGo key l).2.1 =
      ((l.filter (fun s => decide (s.key = key))).reverse).map .destroySound := by
  induction l with
  | nil => rfl
  | cons s rest ih =>
    simp only [removeByKeyGo, List.filter_cons]
    by_cases h : s.key = key <;> simp [h, ih]

theorem removeByKeyGo_count (key : String) (l : List Sound) :
    (removeByKeyGo key l).2.2 = (l.filter (fun s => decide (s.key = key))).length := by
  induction l with
  | nil => rfl
  | cons s rest ih =>
    simp only [removeByKeyGo, List.filter_cons]
    by_cases h : s.key = key <;> simp [h, ih]

/-! ## Claim theorems -/

/-- C4: `removeByKey(k)` destroys and removes from the registry exactly the
sounds whose key equals `k` (none skipped, thanks to the backward scan),
keeps the non-matching sounds in their original relative order, and returns
the number removed; in particular with registry keys "x","y","x",
`removeByKey "x"` returns 2 and leaves only the "y" sound. -/
theorem removeByKey_spec (m : BaseSoundManager) (k : String) :
    (removeByKey m k).1.sounds = m.sounds.filter (fun s => decide (s.key ≠ k)) ∧
    (removeByKey m k).2.1 =
      ((m.sounds.filter (fun s => decide (s.key = k))).reverse).map .destroySound ∧
    (∀ s : Sound, .destroySound s ∈ (removeByKey m k).2.1 ↔ s ∈ m.sounds ∧ s.key = k) ∧
    (∀ s : Sound, s ∈ (removeByKey m k).1.sounds ↔ s ∈ m.sounds ∧ s.key ≠ k) ∧
    (removeByKey m k).2.2 = (m.sounds.filter (fun s => decide (s.key = k))).length ∧
    (removeByKey
        { gameAttached := true, eventsAlive := true
          sounds := [⟨1, "x", false, false, false⟩, ⟨2, "y", false, false, false⟩,
                     ⟨3, "x", false, false, false⟩]
          mute := false, volume := 1, pauseOnBlur := true, _rate := 1, _detune := 0 }
        "x").2.2 = 2 ∧
    (removeByKey
        { gameAttached := true, eventsAlive := true
          sounds := [⟨1, "x", false, false, false⟩, ⟨2, "y", false, false, false⟩,
                     ⟨3, "x", false, false, false⟩]
          mute := false, volume := 1, pauseOnBlur := true, _rate := 1, _detune := 0 }
        "x").1.sounds = [⟨2, "y", false, false, false⟩] := by
  refine ⟨removeByKeyGo_survivors k m.sounds, removeByKeyGo_trace k m.sounds, ?_, ?_,
    removeByKeyGo_count k m.sounds, by decide, by decide⟩
  · intro s
    show Effect.destroySound s ∈ (removeByKeyGo k m.sounds).2.1 ↔ _
    rw [removeByKeyGo_trace k m.sounds]
    constructor
    · intro h
      rcases List.mem_map.1 h with ⟨t, ht, hts⟩
      cases Effect.destroySound.inj hts
      have := List.mem_reverse.1 ht
      have := List.mem_filter.1 this
      exact ⟨this.1, by simpa using this.2⟩
    · intro ⟨hmem, hkey⟩
      exact List.mem_map.2 ⟨s, List.mem_reverse.2 (List.mem_filter.2 ⟨hmem, by simpa using hkey⟩), rfl⟩
  · intro s
    show s ∈ (removeByKeyGo k m.sounds).1 ↔ _
    rw [removeByKeyGo_survivors k m.sounds]
    simp [List.mem_filter]

theorem remove_of_not_mem (m : BaseSoundManager) (s : Sound) (h : s ∉ m.sounds) :
    remove m s = (m, [], false) := by
  simp [remove, h]

/-- C5: `remove(s)` on a registered sound destroys it, removes it from the
registry (leaving the other sounds' membership unchanged) and returns true;
on an absent sound it returns false with the whole state unchanged; hence a
second call after a successful removal returns false with no side effects. -/
theorem remove_spec (m : BaseSoundManager) (s : Sound) (hnd : m.sounds.Nodup) :
    (s ∈ m.sounds →
      (remove m s).2.2 = true ∧
      (remove m s).2.1 = [.destroySound s] ∧
      s ∉ (remove m s).1.sounds ∧
      (∀ t : Sound, t ≠ s → (t ∈ (remove m s).1.sounds ↔ t ∈ m.sounds))) ∧
    (s ∉ m.sounds → remove m s = (m, [], false)) ∧
    (s ∈ m.sounds → remove (remove m s).1 s = ((remove m s).1, [], false)) := by
  refine ⟨?_, ?_, ?_⟩
  · intro hmem
    refine ⟨by simp [remove, hmem], by simp [remove, hmem], ?_, ?_⟩
    · simp only [remove, if_pos hmem]
      exact hnd.not_mem_erase
    · intro t ht
      simp only [remove, if_pos hmem]
      exact List.mem_erase_of_ne ht
  · intro hmem
    exact remove_of_not_mem m s hmem
  · intro hmem
    have habs : s ∉ (remove m s).1.sounds := by
      simp only [remove, if_pos hmem]
      exact hnd.not_mem_erase
    exact remove_of_not_mem (remove m s).1 s habs

/-- C5 witness. -/
theorem remove_spec_witness :
    ([⟨1, "x", false, false, false⟩] : List Sound).Nodup ∧
    ((⟨1, "x", false, false, false⟩ : Sound) ∈
        ([⟨1, "x", false, false, false⟩] : List Sound) →
      (remove
          { gameAttached := true, eventsAlive := true
            sounds := [⟨1, "x", false, false, false⟩]
            mute := false, volume := 1, pauseOnBlur := true, _rate := 1, _detune := 0 }
          ⟨1, "x", false, false, false⟩).2.2 = true ∧
      (remove
          { gameAttached := true, eventsAlive := true
            sounds := [⟨1, "x", false, false, false⟩]
            mute := false, volume := 1, pauseOnBlur := true, _rate := 1, _detune := 0 }
          ⟨1, "x", false, false, false⟩).2.1 = [.destroySound ⟨1, "x", false, false, false⟩] ∧
      (⟨1, "x", false, false, false⟩ : Sound) ∉
        (remove
          { gameAttached := true, eventsAlive := true
            sounds := [⟨1, "x", false, false, false⟩]
            mute := false, volume := 1, pauseOnBlur := true, _rate := 1, _detune := 0 }
          ⟨1, "x", false, false, false⟩).1.sounds ∧
      (∀ t : Sound, t ≠ ⟨1, "x", false, false, false⟩ →
        (t ∈ (remove
            { gameAttached := true, eventsAlive := true
              sounds := [⟨1, "x", false, false, false⟩]
              mute := false, volume := 1, pauseOnBlur := true, _rate := 1, _detune := 0 }
            ⟨1, "x", false, false, false⟩).1.sounds ↔
          t ∈ ([⟨1, "x", false, false, false⟩] : List Sound)))) := by
  constructor
  · decide
  · exact (remove_spec
      { gameAttached := true, eventsAlive := true
        sounds := [⟨1, "x", false, false, false⟩]
        mute := false, volume := 1, pauseOnBlur := true, _rate := 1, _detune := 0 }
      ⟨1, "x", false, false, false⟩ (by decide)).1

/-- Is an effect a manager-channel event dispatch? -/
def Effect.isDispatch : Effect → Bool
  | .dispatch _ => true
  | _ => false

theorem count_forEachActiveSound (m : BaseSoundManager) (f : Sound → Effect)
    (hf : Function.Injective f) (hnd : m.sounds.Nodup) (s : Sound) :
    (forEachActiveSound m f).count (f s) =
      if s ∈ m.sounds ∧ s.pendingRemove = false then 1 else 0 := by
  have hnd' : (m.sounds.filter (fun t => !t.pendingRemove)).Nodup := hnd.filter _
  have hndm : ((m.sounds.filter (fun t => !t.pendingRemove)).map f).Nodup := hnd'.map hf
  by_cases h : s ∈ m.sounds ∧ s.pendingRemove = false
  · rw [if_pos h]
    refine List.count_eq_one_of_mem hndm ?_
    exact List.mem_map.2 ⟨s, List.mem_filter.2 ⟨h.1, by simp [h.2]⟩, rfl⟩
  · rw [if_neg h]
    refine List.count_eq_zero_of_not_mem ?_
    intro hmem
    rcases List.mem_map.1 hmem with ⟨t, ht, hts⟩
    cases hf hts
    have := List.mem_filter.1 ht
    exact h ⟨this.1, by simpa using this.2⟩

theorem mem_forEachActiveSound (m : BaseSoundManager) (f : Sound → Effect)
    (hf : Function.Injective f) (s : Sound) :
    f s ∈ forEachActiveSound m f ↔ s ∈ m.sounds ∧ s.pendingRemove = false := by
  constructor
  · intro hmem
    rcases List.mem_map.1 hmem with ⟨t, ht, hts⟩
    cases hf hts
    have := List.mem_filter.1 ht
    exact ⟨this.1, by simpa using this.2⟩
  · intro ⟨h1, h2⟩
    exact List.mem_map.2 ⟨s, List.mem_filter.2 ⟨h1, by simp [h2]⟩, rfl⟩

theorem countP_isDispatch_forEach (m : BaseSoundManager) (f : Sound → Effect)
    (hf : ∀ s, (f s).isDispatch = false) :
    (forEachActiveSound m f).countP Effect.isDispatch = 0 := by
  rw [List.countP_eq_zero]
  intro e he
  rcases List.mem_map.1 he with ⟨t, _, hts⟩
  simp [← hts, hf t]

/-- C1: writing `rate` (resp. `detune`) with `v` stores `v` so a subsequent
read returns `v`, then calls the `setRate()` recalculation hook (which
observes the already-stored value) on exactly the registered sounds with
`pendingRemove = false`, in registry order, then emits exactly one
`SOUND_RATE` (resp. `SOUND_DETUNE`) event carrying `v`, as the last step —
store, propagate, notify. -/
theorem rate_detune_set_spec (m : BaseSoundManager) (v : JSNum)
    (hnd : m.sounds.Nodup) :
    (setRate m v).1.rate = v ∧
    (setDetune m v).1.detune = v ∧
    (setRate m v).1.sounds = m.sounds ∧
    (setDetune m v).1.sounds = m.sounds ∧
    (setRate m v).2 =
      (m.sounds.filter (fun s => !s.pendingRemove)).map
          (fun s => .setRateSound s v m._detune)
        ++ [.dispatch (.SOUND_RATE v)] ∧
    (setDetune m v).2 =
      (m.sounds.filter (fun s => !s.pendingRemove)).map
          (fun s => .setRateSound s m._rate v)
        ++ [.dispatch (.SOUND_DETUNE v)] ∧
    (∀ s : Sound,
      (setRate m v).2.count (.setRateSound s v m._detune) =
        if s ∈ m.sounds ∧ s.pendingRemove = false then 1 else 0) ∧
    (∀ s : Sound,
      (setDetune m v).2.count (.setRateSound s m._rate v) =
        if s ∈ m.sounds ∧ s.pendingRemove = false then 1 else 0) ∧
    (setRate m v).2.countP Effect.isDispatch = 1 ∧
    (setDetune m v).2.countP Effect.isDispatch = 1 ∧
    (setRate m v).2.getLast? = some (.dispatch (.SOUND_RATE v)) ∧
    (setDetune m v).2.getLast? = some (.dispatch (.SOUND_DETUNE v)) := by
  have hinjR : Function.Injective (fun s : Sound => Effect.setRateSound s v m._detune) := by
    intro a b h
    cases h
    rfl
  have hinjD : Function.Injective (fun s : Sound => Effect.setRateSound s m._rate v) := by
    intro a b h
    cases h
    rfl
  have hcntR := fun s => count_forEachActiveSound { m with _rate := v }
    (fun s => .setRateSound s v m._detune) hinjR hnd s
  have hcntD := fun s => count_forEachActiveSound { m with _detune := v }
    (fun s => .setRateSound s m._rate v) hinjD hnd s
  refine ⟨rfl, rfl, rfl, rfl, rfl, rfl, ?_, ?_, ?_, ?_, ?_, ?_⟩
  · intro s
    show (forEachActiveSound { m with _rate := v }
          (fun s => Effect.setRateSound s v m._detune)
        ++ [Effect.dispatch (ManagerEvent.SOUND_RATE v)]).count
        (Effect.setRateSound s v m._detune) = _
    rw [List.count_append, hcntR s]
    simp
  · intro s
    show (forEachActiveSound { m with _detune := v }
          (fun s => Effect.setRateSound s m._rate v)
        ++ [Effect.dispatch (ManagerEvent.SOUND_DETUNE v)]).count
        (Effect.setRateSound s m._rate v) = _
    rw [List.count_append, hcntD s]
    simp
  · show (forEachActiveSound { m with _rate := v }
          (fun s => Effect.setRateSound s v m._detune)
        ++ [Effect.dispatch (ManagerEvent.SOUND_RATE v)]).countP Effect.isDispatch = _
    rw [List.countP_append,
      countP_isDispatch_forEach { m with _rate := v }
        (fun s => Effect.setRateSound s v m._detune) (fun _ => rfl)]
    rfl
  · show (forEachActiveSound { m with _detune := v }
          (fun s => Effect.setRateSound s m._rate v)
        ++ [Effect.dispatch (ManagerEvent.SOUND_DETUNE v)]).countP Effect.isDispatch = _
    rw [List.countP_append,
      countP_isDispatch_forEach { m with _detune := v }
        (fun s => Effect.setRateSound s m._rate v) (fun _ => rfl)]
    rfl
  · exact List.getLast?_concat _
  · exact List.getLast?_concat _

/-- C1 witness: the spec's own example — rate set to 2 on a manager with two
active sounds and one `pendingRemove` sound. -/
theorem rate_detune_set_spec_witness :
    ([⟨1, "a", false, false, false⟩, ⟨2, "b", false, false, false⟩,
      ⟨3, "c", true, true, false⟩] : List Sound).Nodup ∧
    ((setRate
        { gameAttached := true, eventsAlive := true
          sounds := [⟨1, "a", false, false, false⟩, ⟨2, "b", false, false, false⟩,
                     ⟨3, "c", true, true, false⟩]
          mute := false, volume := 1, pauseOnBlur := true, _rate := 1, _detune := 0 }
        2).1.rate = 2 ∧
     (setRate
        { gameAttached := true, eventsAlive := true
          sounds := [⟨1, "a", false, false, false⟩, ⟨2, "b", false, false, false⟩,
                     ⟨3, "c", true, true, false⟩]
          mute := false, volume := 1, pauseOnBlur := true, _rate := 1, _detune := 0 }
        2).2.countP Effect.isDispatch = 1) := by
  refine ⟨by decide, ?_, ?_⟩
  · exact (rate_detune_set_spec
      { gameAttached := true, eventsAlive := true
        sounds := [⟨1, "a", false, false, false⟩, ⟨2, "b", false, false, false⟩,
                   ⟨3, "c", true, true, false⟩]
        mute := false, volume := 1, pauseOnBlur := true, _rate := 1, _detune := 0 }
      2 (by decide)).1
  · exact (rate_detune_set_spec
      { gameAttached := true, eventsAlive := true
        sounds := [⟨1, "a", false, false, false⟩, ⟨2, "b", false, false, false⟩,
                   ⟨3, "c", true, true, false⟩]
        mute := false, volume := 1, pauseOnBlur := true, _rate := 1, _detune := 0 }
      2 (by decide)).2.2.2.2.2.2.2.2.1

/-- C3: `pauseAll` / `resumeAll` / `stopAll` invoke the corresponding
per-sound transport operation on exactly the registered sounds with
`pendingRemove = false`, in registry order, then emit exactly one
`SOUND_PAUSE` / `SOUND_RESUME` / `SOUND_STOP` event as the final step —
one event per bulk call, also on an empty or all-inactive registry. -/
theorem bulk_transport_spec (m : BaseSoundManager) (hnd : m.sounds.Nodup) :
    pauseAll m =
      (m.sounds.filter (fun s => !s.pendingRemove)).map .pauseSound
        ++ [.dispatch .SOUND_PAUSE] ∧
    resumeAll m =
      (m.sounds.filter (fun s => !s.pendingRemove)).map .resumeSound
        ++ [.dispatch .SOUND_RESUME] ∧
    stopAll m =
      (m.sounds.filter (fun s => !s.pendingRemove)).map .stopSound
        ++ [.dispatch .SOUND_STOP] ∧
    (∀ s : Sound, (pauseAll m).count (.pauseSound s) =
      if s ∈ m.sounds ∧ s.pendingRemove = false then 1 else 0) ∧
    (∀ s : Sound, (resumeAll m).count (.resumeSound s) =
      if s ∈ m.sounds ∧ s.pendingRemove = false then 1 else 0) ∧
    (∀ s : Sound, (stopAll m).count (.stopSound s) =
      if s ∈ m.sounds ∧ s.pendingRemove = false then 1 else 0) ∧
    (pauseAll m).countP Effect.isDispatch = 1 ∧
    (resumeAll m).countP Effect.isDispatch = 1 ∧
    (stopAll m).countP Effect.isDispatch = 1 ∧
    (pauseAll m).getLast? = some (.dispatch .SOUND_PAUSE) ∧
    (resumeAll m).getLast? = some (.dispatch .SOUND_RESUME) ∧
    (stopAll m).getLast? = some (.dispatch .SOUND_STOP) := by
  have hip : Function.Injective Effect.pauseSound := by
    intro a b h
    cases h
    rfl
  have hir : Function.Injective Effect.resumeSound := by
    intro a b h
    cases h
    rfl
  have his : Function.Injective Effect.stopSound := by
    intro a b h
    cases h
    rfl
  refine ⟨rfl, rfl, rfl, ?_, ?_, ?_, ?_, ?_, ?_,
    List.getLast?_concat _, List.getLast?_concat _, List.getLast?_concat _⟩
  · intro s
    show (forEachActiveSound m Effect.pauseSound
        ++ [Effect.dispatch ManagerEvent.SOUND_PAUSE]).count (Effect.pauseSound s) = _
    rw [List.count_append, count_forEachActiveSound m Effect.pauseSound hip hnd s]
    simp
  · intro s
    show (forEachActiveSound m Effect.resumeSound
        ++ [Effect.dispatch ManagerEvent.SOUND_RESUME]).count (Effect.resumeSound s) = _
    rw [List.count_append, count_forEachActiveSound m Effect.resumeSound hir hnd s]
    simp
  · intro s
    show (forEachActiveSound m Effect.stopSound
        ++ [Effect.dispatch ManagerEvent.SOUND_STOP]).count (Effect.stopSound s) = _
    rw [List.count_append, count_forEachActiveSound m Effect.stopSound his hnd s]
    simp
  · show (forEachActiveSound m Effect.pauseSound
        ++ [Effect.dispatch ManagerEvent.SOUND_PAUSE]).countP Effect.isDispatch = _
    rw [List.countP_append,
      countP_isDispatch_forEach m Effect.pauseSound (fun _ => rfl)]
    rfl
  · show (forEachActiveSound m Effect.resumeSound
        ++ [Effect.dispatch ManagerEvent.SOUND_RESUME]).countP Effect.isDispatch = _
    rw [List.countP_append,
      countP_isDispatch_forEach m Effect.resumeSound (fun _ => rfl)]
    rfl
  · show (forEachActiveSound m Effect.stopSound
        ++ [Effect.dispatch ManagerEvent.SOUND_STOP]).countP Effect.isDispatch = _
    rw [List.countP_append,
      countP_isDispatch_forEach m Effect.stopSound (fun _ => rfl)]
    rfl

/-- C3 witness: the spec's example — 3 active sounds and 1 `pendingRemove`
sound; `pauseAll` pauses each active sound once and dispatches once. -/
theorem bulk_transport_spec_witness :
    ([⟨1, "a", false, false, false⟩, ⟨2, "b", false, false, false⟩,
      ⟨3, "c", false, false, false⟩, ⟨4, "d", true, true, false⟩] : List Sound).Nodup ∧
    (pauseAll
        { gameAttached := true, eventsAlive := true
          sounds := [⟨1, "a", false, false, false⟩, ⟨2, "b", false, false, false⟩,
                     ⟨3, "c", false, false, false⟩, ⟨4, "d", true, true, false⟩]
          mute := false, volume := 1, pauseOnBlur := true, _rate := 1, _detune := 0 }).count
      (.pauseSound ⟨1, "a", false, false, false⟩) =
      (if (⟨1, "a", false, false, false⟩ : Sound) ∈
          ([⟨1, "a", false, false, false⟩, ⟨2, "b", false, false, false⟩,
            ⟨3, "c", false, false, false⟩, ⟨4, "d", true, true, false⟩] : List Sound) ∧
          (⟨1, "a", false, false, false⟩ : Sound).pendingRemove = false then 1 else 0) ∧
    (pauseAll
        { gameAttached := true, eventsAlive := true
          sounds := [⟨1, "a", false, false, false⟩, ⟨2, "b", false, false, false⟩,
                     ⟨3, "c", false, false, false⟩, ⟨4, "d", true, true, false⟩]
          mute := false, volume := 1, pauseOnBlur := true, _rate := 1, _detune := 0 }).countP
      Effect.isDispatch = 1 := by
  refine ⟨by decide, ?_, ?_⟩
  · exact (bulk_transport_spec
      { gameAttached := true, eventsAlive := true
        sounds := [⟨1, "a", false, false, false⟩, ⟨2, "b", false, false, false⟩,
                   ⟨3, "c", false, false, false⟩, ⟨4, "d", true, true, false⟩]
        mute := false, volume := 1, pauseOnBlur := true, _rate := 1, _detune := 0 }
      (by decide)).2.2.2.1 ⟨1, "a", false, false, false⟩
  · exact (bulk_transport_spec
      { gameAttached := true, eventsAlive := true
        sounds := [⟨1, "a", false, false, false⟩, ⟨2, "b", false, false, false⟩,
                   ⟨3, "c", false, false, false⟩, ⟨4, "d", true, true, false⟩]
        mute := false, volume := 1, pauseOnBlur := true, _rate := 1, _detune := 0 }
      (by decide)).2.2.2.2.2.2.1

theorem reapPending_eq_filter (l : List Sound) :
    reapPending l = l.filter (fun s => !s.pendingRemove) := by
  induction l with
  | nil => rfl
  | cons s rest ih =>
    simp only [reapPending, List.filter_cons]
    by_cases h : s.pendingRemove <;> simp [h, ih]

theorem update_sounds (m : BaseSoundManager) (tick : Sound → JSNum → JSNum → Sound)
    (t dt : JSNum) :
    (update m tick t dt).1.sounds =
      (m.sounds.filter (fun s => !s.pendingRemove)).map (fun s => tick s t dt) := by
  show (reapPending m.sounds).map _ = _
  rw [reapPending_eq_filter]

theorem update_trace (m : BaseSoundManager) (tick : Sound → JSNum → JSNum → Sound)
    (t dt : JSNum) :
    (update m tick t dt).2 =
      (m.sounds.filter (fun s => !s.pendingRemove)).map
        (fun s => .updateSound s t dt) := by
  show (reapPending m.sounds).map _ = _
  rw [reapPending_eq_filter]

theorem mem_update_trace (m : BaseSoundManager) (tick : Sound → JSNum → JSNum → Sound)
    (t dt : JSNum) (s : Sound) (a b : JSNum) :
    Effect.updateSound s a b ∈ (update m tick t dt).2 ↔
      s ∈ m.sounds ∧ s.pendingRemove = false ∧ a = t ∧ b = dt := by
  rw [update_trace]
  constructor
  · intro h
    rcases List.mem_map.1 h with ⟨u, hu, hus⟩
    cases Effect.updateSound.inj hus |>.1
    cases Effect.updateSound.inj hus |>.2.1
    cases Effect.updateSound.inj hus |>.2.2
    have := List.mem_filter.1 hu
    exact ⟨this.1, by simpa using this.2, rfl, rfl⟩
  · rintro ⟨h1, h2, rfl, rfl⟩
    exact List.mem_map.2 ⟨s, List.mem_filter.2 ⟨h1, by simp [h2]⟩, rfl⟩

/-- C2: `update(t, dt)` reaps every sound flagged `pendingRemove` at entry —
removing it from the registry with no destroy call and no tick — then ticks
each survivor exactly once, with the same `t` and `dt`, in original relative
registry order; a sound that sets its own flag during its own tick is still
ticked this frame, stays in the registry until the next `update`, and is
reaped (not ticked) there. -/
theorem update_frame_spec (m : BaseSoundManager)
    (tick : Sound → JSNum → JSNum → Sound) (t dt : JSNum)
    (hndid : (soundIds m).Nodup) (hid : ∀ s a b, (tick s a b).id = s.id) :
    (update m tick t dt).2 =
      (m.sounds.filter (fun s => !s.pendingRemove)).map
        (fun s => .updateSound s t dt) ∧
    (update m tick t dt).1.sounds =
      (m.sounds.filter (fun s => !s.pendingRemove)).map (fun s => tick s t dt) ∧
    (∀ (s : Sound) (a b : JSNum),
      Effect.updateSound s a b ∈ (update m tick t dt).2 ↔
        s ∈ m.sounds ∧ s.pendingRemove = false ∧ a = t ∧ b = dt) ∧
    (∀ s : Sound, (update m tick t dt).2.count (.updateSound s t dt) =
      if s ∈ m.sounds ∧ s.pendingRemove = false then 1 else 0) ∧
    (∀ s : Sound, Effect.destroySound s ∉ (update m tick t dt).2) ∧
    (∀ s ∈ m.sounds, s.pendingRemove = true →
      s.id ∉ soundIds (update m tick t dt).1) ∧
    (∀ s ∈ m.sounds, s.pendingRemove = false →
      (tick s t dt).pendingRemove = true →
      Effect.updateSound s t dt ∈ (update m tick t dt).2 ∧
      tick s t dt ∈ (update m tick t dt).1.sounds ∧
      (∀ a b c d : JSNum,
        Effect.updateSound (tick s t dt) c d ∉
          (update (update m tick t dt).1 tick a b).2) ∧
      (∀ a b : JSNum,
        (tick s t dt).id ∉ soundIds (update (update m tick t dt).1 tick a b).1)) := by
  have hnd : m.sounds.Nodup := List.Nodup.of_map _ hndid
  have hids' : soundIds (update m tick t dt).1 =
      (m.sounds.filter (fun s => !s.pendingRemove)).map (·.id) := by
    show ((update m tick t dt).1.sounds).map (·.id) = _
    rw [update_sounds]
    rw [List.map_map]
    refine List.map_congr_left ?_
    intro u _
    exact hid u t dt
  refine ⟨update_trace m tick t dt, update_sounds m tick t dt,
    mem_update_trace m tick t dt, ?_, ?_, ?_, ?_⟩
  · intro s
    rw [update_trace]
    have hinj : Function.Injective (fun u : Sound => Effect.updateSound u t dt) := by
      intro a b h
      cases h
      rfl
    by_cases h : s ∈ m.sounds ∧ s.pendingRemove = false
    · rw [if_pos h]
      refine List.count_eq_one_of_mem ((hnd.filter _).map hinj) ?_
      exact List.mem_map.2 ⟨s, List.mem_filter.2 ⟨h.1, by simp [h.2]⟩, rfl⟩
    · rw [if_neg h]
      refine List.count_eq_zero_of_not_mem ?_
      intro hmem
      rcases List.mem_map.1 hmem with ⟨u, hu, hus⟩
      cases hinj hus
      have := List.mem_filter.1 hu
      exact h ⟨this.1, by simpa using this.2⟩
  · intro s h
    rw [update_trace] at h
    rcases List.mem_map.1 h with ⟨u, _, hus⟩
    exact Effect.noConfusion hus
  · intro s hs hflag hmem
    rw [hids'] at hmem
    rcases List.mem_map.1 hmem with ⟨u, hu, huid⟩
    have hum := List.mem_filter.1 hu
    have : u = s := List.inj_on_of_nodup_map hndid hum.1 hs huid
    rw [this] at hum
    rw [hflag] at hum
    simpa using hum.2
  · intro s hs hactive hafter
    have hticked : tick s t dt ∈ (update m tick t dt).1.sounds := by
      rw [update_sounds]
      exact List.mem_map.2 ⟨s, List.mem_filter.2 ⟨hs, by simp [hactive]⟩, rfl⟩
    refine ⟨(mem_update_trace m tick t dt s t dt).2 ⟨hs, hactive, rfl, rfl⟩,
      hticked, ?_, ?_⟩
    · intro a b c d hmem
      have := (mem_update_trace (update m tick t dt).1 tick a b (tick s t dt) c d).1 hmem
      rw [hafter] at this
      exact Bool.noConfusion this.2.1
    · intro a b hmem
      have hnd2 : (soundIds (update m tick t dt).1).Nodup := by
        rw [hids']
        have hsub : List.Sublist
            ((m.sounds.filter (fun s => !s.pendingRemove)).map (·.id))
            (m.sounds.map (·.id)) :=
          List.Sublist.map _ (List.filter_sublist m.sounds)
        exact hsub.nodup hndid
      have hids2 : soundIds (update (update m tick t dt).1 tick a b).1 =
          ((update m tick t dt).1.sounds.filter (fun s => !s.pendingRemove)).map (·.id) := by
        show ((update (update m tick t dt).1 tick a b).1.sounds).map (·.id) = _
        rw [update_sounds, List.map_map]
        refine List.map_congr_left ?_
        intro u _
        exact hid u a b
      rw [hids2] at hmem
      rcases List.mem_map.1 hmem with ⟨u, hu, huid⟩
      have hum := List.mem_filter.1 hu
      have : u = tick s t dt :=
        List.inj_on_of_nodup_map hnd2 hum.1 hticked huid
      rw [this] at hum
      rw [hafter] at hum
      simpa using hum.2

/-- C2 witness: one active sound whose tick sets its own `pendingRemove`
flag, and one sound already flagged at entry. -/
theorem update_frame_spec_witness :
    (soundIds (mkMgr [⟨1, "a", false, false, false⟩,
        ⟨2, "b", true, true, false⟩])).Nodup ∧
    (∀ (s : Sound) (a b : JSNum), (tickFlag s a b).id = s.id) ∧
    (∀ s ∈ (mkMgr [⟨1, "a", false, false, false⟩,
          ⟨2, "b", true, true, false⟩]).sounds,
      s.pendingRemove = true →
      s.id ∉ soundIds (update (mkMgr [⟨1, "a", false, false, false⟩,
          ⟨2, "b", true, true, false⟩]) tickFlag 10 16).1) := by
  refine ⟨by decide, fun s a b => rfl, ?_⟩
  exact (update_frame_spec
    (mkMgr [⟨1, "a", false, false, false⟩, ⟨2, "b", true, true, false⟩])
    tickFlag 10 16 (by decide) (fun s a b => rfl)).2.2.2.2.2.1

/-- C7: `play(key, extra)` creates a sound via `add`, arms a one-shot
auto-destroy subscription for `SOUND_ENDED` first, then starts playback:
with a truthy `name` field the extra is registered via `addMarker` and
playback starts at that marker name; with a plain extra it is passed to
`play` directly; with no extra, `play()` takes no arguments.  The sound is
registered (not returned), and the subscription fires at most once: the
first `SOUND_ENDED` destroys the sound, a second delivery does nothing. -/
theorem map_id_on (l : List Sound) (f : Sound → Sound) (h : ∀ s ∈ l, f s = s) :
    l.map f = l :=
  (List.map_congr_left fun s hs => h s hs).trans (List.map_id l)

theorem deliverSoundEnded_trace (m : BaseSoundManager) (sid : Nat) :
    (deliverSoundEnded m sid).2 =
      (m.sounds.filter (fun s => s.id = sid && s.endedOnceArmed)).map
        .destroySound :=
  rfl

theorem deliverSoundEnded_sounds (m : BaseSoundManager) (sid : Nat) :
    (deliverSoundEnded m sid).1.sounds =
      m.sounds.map (fun s =>
        if s.id = sid && s.endedOnceArmed then
          { s with
              endedOnceArmed := false, destroyed := true, pendingRemove := true }
        else s) :=
  rfl

theorem play_spec (m : BaseSoundManager) (key : String) (extra : Option ExtraObj)
    (nid : Nat) (hfresh : ∀ s ∈ m.sounds, s.id ≠ nid) :
    (play m key none nid).2 = [.onceEnded nid, .playSound nid .noArgs] ∧
    (∀ (e : ExtraObj) (n : String), e.name = some n →
      (play m key (some e) nid).2 =
        [.onceEnded nid, .addMarkerExtra nid e, .playSound nid (.markerName n)]) ∧
    (∀ e : ExtraObj, e.name = none →
      (play m key (some e) nid).2 =
        [.onceEnded nid, .playSound nid (.configArg e)]) ∧
    (play m key extra nid).1.sounds =
      m.sounds ++ [{ id := nid, key := key, pendingRemove := false
                     destroyed := false, endedOnceArmed := true }] ∧
    (deliverSoundEnded (play m key extra nid).1 nid).2 =
      [.destroySound { id := nid, key := key, pendingRemove := false
                       destroyed := false, endedOnceArmed := true }] ∧
    (deliverSoundEnded (deliverSoundEnded (play m key extra nid).1 nid).1 nid).2
      = [] := by
  have hsounds : (play m key extra nid).1.sounds =
      m.sounds ++ [{ id := nid, key := key, pendingRemove := false
                     destroyed := false, endedOnceArmed := true }] := by
    simp only [play, add, armOnceEnded]
    rw [List.map_append, map_id_on _ _ (fun s hs => by simp [hfresh s hs])]
    simp
  have hfilterNil : m.sounds.filter
      (fun s => s.id = nid && s.endedOnceArmed) = [] := by
    rw [List.filter_eq_nil_iff]
    intro s hs
    simp [hfresh s hs]
  have hone : (deliverSoundEnded (play m key extra nid).1 nid).2 =
      [.destroySound { id := nid, key := key, pendingRemove := false
                       destroyed := false, endedOnceArmed := true }] := by
    rw [deliverSoundEnded_trace, hsounds, List.filter_append, hfilterNil]
    simp
  refine ⟨rfl, ?_, ?_, hsounds, hone, ?_⟩
  · rintro ⟨ename, epayload⟩ n hn
    cases hn
    rfl
  · rintro ⟨ename, epayload⟩ hn
    cases hn
    rfl
  · have hsounds2 : (deliverSoundEnded (play m key extra nid).1 nid).1.sounds =
        m.sounds ++ [{ id := nid, key := key, pendingRemove := true
                       destroyed := true, endedOnceArmed := false }] := by
      rw [deliverSoundEnded_sounds, hsounds, List.map_append,
        map_id_on _ _ (fun s hs => by simp [hfresh s hs])]
      simp
    rw [deliverSoundEnded_trace, hsounds2, List.filter_append, hfilterNil]
    simp

/-- C7 witness. -/
theorem play_spec_witness :
    (∀ s ∈ (mkMgr [⟨1, "a", false, false, false⟩]).sounds, s.id ≠ 2) ∧
    (play (mkMgr [⟨1, "a", false, false, false⟩]) "sfx" none 2).2 =
      [.onceEnded 2, .playSound 2 .noArgs] ∧
    (deliverSoundEnded (deliverSoundEnded
        (play (mkMgr [⟨1, "a", false, false, false⟩]) "sfx" none 2).1 2).1 2).2
      = [] := by
  have h := play_spec (mkMgr [⟨1, "a", false, false, false⟩]) "sfx" none 2
    (by decide)
  exact ⟨by decide, h.1, h.2.2.2.2.2⟩

/-- C10: `playAudioSprite(key, spriteName, config)` creates the sprite sound
through `addAudioSprite` with the key only — `config` is not forwarded, so
every marker registered from the sprite map carries an undefined config —
and `config` reaches only the final `sound.play(spriteName, config)` call. -/
theorem playAudioSprite_spec (cache : String → List SpriteEntry)
    (m : BaseSoundManager) (key spriteName : String)
    (config : Option SoundConfig) (nid : Nat) :
    (playAudioSprite cache m key spriteName config nid).2 =
      (cache key).map (fun e =>
        .addMarkerSound nid
          { name := e.name, start := e.start
            duration := e.endTime - e.start, config := none })
        ++ [.onceEnded nid, .playSound nid (.nameAndConfig spriteName config)] ∧
    (∀ (sid : Nat) (mk : Marker),
      Effect.addMarkerSound sid mk ∈
          (playAudioSprite cache m key spriteName config nid).2 →
        mk.config = none) ∧
    (playAudioSprite cache m key spriteName config nid).2.getLast? =
      some (.playSound nid (.nameAndConfig spriteName config)) := by
  have htr : (playAudioSprite cache m key spriteName config nid).2 =
      (cache key).map (fun e =>
        .addMarkerSound nid
          { name := e.name, start := e.start
            duration := e.endTime - e.start, config := none })
        ++ [.onceEnded nid, .playSound nid (.nameAndConfig spriteName config)] := rfl
  refine ⟨htr, ?_, ?_⟩
  · intro sid mk hmem
    rw [htr] at hmem
    rcases List.mem_append.1 hmem with h | h
    · rcases List.mem_map.1 h with ⟨e, _, he⟩
      cases Effect.addMarkerSound.inj he |>.2
      rfl
    · simp at h
  · rw [htr]
    rw [show ((cache key).map (fun e =>
        Effect.addMarkerSound nid
          { name := e.name, start := e.start
            duration := e.endTime - e.start, config := none })
        ++ [Effect.onceEnded nid,
            Effect.playSound nid (.nameAndConfig spriteName config)]) =
      (((cache key).map (fun e =>
        Effect.addMarkerSound nid
          { name := e.name, start := e.start
            duration := e.endTime - e.start, config := none })
        ++ [Effect.onceEnded nid])
        ++ [Effect.playSound nid (.nameAndConfig spriteName config)]) by
      simp]
    exact List.getLast?_concat _

/-- C6: `destroy()` releases the game reference, destroys and releases the
event channel, and clears the registry; given the spec's invariant that a
registered sound is `pendingRemove` exactly when its own destroy has
already run, every sound that was registered ends up destroyed exactly
once: the still-live ones get exactly one `destroy()` call here, the
already-gone ones get none (so none is double-destroyed and none is left
undestroyed). -/
theorem destroy_spec (m : BaseSoundManager) (hnd : m.sounds.Nodup)
    (hgone : ∀ s ∈ m.sounds, s.destroyed = s.pendingRemove) :
    (destroy m).1.gameAttached = false ∧
    (destroy m).1.eventsAlive = false ∧
    (destroy m).1.sounds = [] ∧
    Effect.destroyEvents ∈ (destroy m).2 ∧
    (∀ s ∈ m.sounds,
      (if s.destroyed then 1 else 0) + (destroy m).2.count (.destroySound s)
        = 1) := by
  refine ⟨rfl, rfl, rfl, List.mem_cons_self _ _, ?_⟩
  intro s hs
  have hinj : Function.Injective Effect.destroySound := by
    intro a b h
    cases h
    rfl
  have hcnt : (destroy m).2.count (.destroySound s) =
      if s ∈ m.sounds ∧ s.pendingRemove = false then 1 else 0 := by
    show (Effect.destroyEvents :: forEachActiveSound m .destroySound).count _ = _
    rw [List.count_cons_of_ne (by intro h; exact Effect.noConfusion h),
      count_forEachActiveSound m .destroySound hinj hnd s]
  rw [hcnt, hgone s hs]
  by_cases h : s.pendingRemove
  · simp [h]
  · simp [h, hs]

/-- C6 witness: one live sound and one already-gone sound. -/
theorem destroy_spec_witness :
    ([⟨1, "a", false, false, false⟩, ⟨2, "b", true, true, false⟩] :
        List Sound).Nodup ∧
    (∀ s ∈ (mkMgr [⟨1, "a", false, false, false⟩,
        ⟨2, "b", true, true, false⟩]).sounds,
      s.destroyed = s.pendingRemove) ∧
    (∀ s ∈ (mkMgr [⟨1, "a", false, false, false⟩,
        ⟨2, "b", true, true, false⟩]).sounds,
      (if s.destroyed then 1 else 0) +
        (destroy (mkMgr [⟨1, "a", false, false, false⟩,
          ⟨2, "b", true, true, false⟩])).2.count (.destroySound s) = 1) := by
  refine ⟨by decide, by decide, ?_⟩
  exact (destroy_spec
    (mkMgr [⟨1, "a", false, false, false⟩, ⟨2, "b", true, true, false⟩])
    (by decide) (by decide)).2.2.2.2

/-- C9 (refuting the after-destroy half of the claim): construction installs
exactly one blur and one focus handler on the game's channel, but `destroy`
neither removes them nor clears `pauseOnBlur`, so a blur or focus signal
delivered after `destroy()` still invokes the manager's `onBlur`/`onFocus`
hook — the code contradicts the claim. -/
theorem blur_after_destroy_fires :
    (subscribeOnGame { blurSubs := 0, focusSubs := 0 }).blurSubs = 1 ∧
    (subscribeOnGame { blurSubs := 0, focusSubs := 0 }).focusSubs = 1 ∧
    (destroy newBaseSoundManager).1.pauseOnBlur = true ∧
    deliverBlur (subscribeOnGame { blurSubs := 0, focusSubs := 0 })
      (destroy newBaseSoundManager).1 = [.onBlurCall] ∧
    deliverFocus (subscribeOnGame { blurSubs := 0, focusSubs := 0 })
      (destroy newBaseSoundManager).1 = [.onFocusCall] :=
  ⟨rfl, rfl, rfl, rfl, rfl⟩

theorem addIds_append (l1 l2 : List MOp) :
    addIds (l1 ++ l2) = addIds l1 ++ addIds l2 := by
  induction l1 with
  | nil => rfl
  | cons op rest ih => cases op <;> simp [addIds, ih]

theorem runOps_append (tick : Sound → JSNum → JSNum → Sound)
    (m : BaseSoundManager) (l1 l2 : List MOp) :
    runOps tick m (l1 ++ l2) = runOps tick (runOps tick m l1) l2 := by
  induction l1 generalizing m with
  | nil => rfl
  | cons op rest ih => simp [runOps, ih]

theorem runCount_fst (tick : Sound → JSNum → JSNum → Sound)
    (ops : List MOp) : ∀ m : BaseSoundManager,
    (runCount tick m ops).1 = runOps tick m ops := by
  induction ops with
  | nil => intro m; rfl
  | cons op rest ih => intro m; exact ih (stepOp tick m op).1

theorem soundIds_stepOp_addOp (tick : Sound → JSNum → JSNum → Sound)
    (m : BaseSoundManager) (key : String) (nid : Nat) :
    soundIds (stepOp tick m (.addOp key nid)).1 = soundIds m ++ [nid] := by
  simp [stepOp, add, soundIds]

theorem soundIds_remove_sublist (m : BaseSoundManager) (s : Sound) :
    List.Sublist (soundIds (remove m s).1) (soundIds m) := by
  by_cases h : s ∈ m.sounds
  · simp only [remove, if_pos h]
    exact List.Sublist.map _ (List.erase_sublist s m.sounds)
  · simp only [remove, if_neg h]
    exact List.Sublist.refl _

theorem soundIds_removeByKey_sublist (m : BaseSoundManager) (k : String) :
    List.Sublist (soundIds (removeByKey m k).1) (soundIds m) := by
  show List.Sublist (((removeByKeyGo k m.sounds).1).map (·.id)) _
  rw [removeByKeyGo_survivors]
  exact List.Sublist.map _ (List.filter_sublist _)

theorem soundIds_update (tick : Sound → JSNum → JSNum → Sound)
    (hid : ∀ s a b, (tick s a b).id = s.id) (m : BaseSoundManager)
    (t dt : JSNum) :
    soundIds (update m tick t dt).1 =
      (m.sounds.filter (fun s => !s.pendingRemove)).map (·.id) := by
  show ((update m tick t dt).1.sounds).map (·.id) = _
  rw [update_sounds, List.map_map]
  exact List.map_congr_left (fun u _ => hid u t dt)

theorem soundIds_deliverSoundEnded (m : BaseSoundManager) (sid : Nat) :
    soundIds (deliverSoundEnded m sid).1 = soundIds m := by
  show ((deliverSoundEnded m sid).1.sounds).map (·.id) = m.sounds.map (·.id)
  rw [deliverSoundEnded_sounds, List.map_map]
  refine List.map_congr_left ?_
  intro s _
  show (if s.id = sid && s.endedOnceArmed then
      { s with
          endedOnceArmed := false, destroyed := true, pendingRemove := true }
    else s).id = s.id
  split <;> rfl

theorem stepOp_nodup_inv (tick : Sound → JSNum → JSNum → Sound)
    (hid : ∀ s a b, (tick s a b).id = s.id) (m : BaseSoundManager)
    (op : MOp) (rest : List MOp)
    (h : (soundIds m ++ addIds (op :: rest)).Nodup) :
    (soundIds (stepOp tick m op).1 ++ addIds rest).Nodup := by
  cases op with
  | addOp key nid =>
    rw [soundIds_stepOp_addOp]
    have he : addIds (MOp.addOp key nid :: rest) = nid :: addIds rest := rfl
    rw [he] at h
    rw [List.append_assoc]
    exact h
  | removeOp s =>
    have he : addIds (MOp.removeOp s :: rest) = addIds rest := rfl
    rw [he] at h
    exact ((soundIds_remove_sublist m s).append_right _).nodup h
  | removeByKeyOp key =>
    have he : addIds (MOp.removeByKeyOp key :: rest) = addIds rest := rfl
    rw [he] at h
    exact ((soundIds_removeByKey_sublist m key).append_right _).nodup h
  | updateOp t dt =>
    have he : addIds (MOp.updateOp t dt :: rest) = addIds rest := rfl
    rw [he] at h
    have hsub : List.Sublist (soundIds (stepOp tick m (.updateOp t dt)).1)
        (soundIds m) := by
      rw [show soundIds (stepOp tick m (.updateOp t dt)).1 =
          soundIds (update m tick t dt).1 from rfl]
      rw [soundIds_update tick hid m t dt]
      exact List.Sublist.map _ (List.filter_sublist _)
    exact (hsub.append_right _).nodup h
  | endedOp sid =>
    have he : addIds (MOp.endedOp sid :: rest) = addIds rest := rfl
    rw [he] at h
    rw [show soundIds (stepOp tick m (.endedOp sid)).1 =
        soundIds (deliverSoundEnded m sid).1 from rfl]
    rw [soundIds_deliverSoundEnded]
    exact h

theorem runOps_nodup (tick : Sound → JSNum → JSNum → Sound)
    (hid : ∀ s a b, (tick s a b).id = s.id) :
    ∀ (ops : List MOp) (m : BaseSoundManager),
    (soundIds m ++ addIds ops).Nodup →
    (soundIds (runOps tick m ops)).Nodup := by
  intro ops
  induction ops with
  | nil =>
    intro m h
    show (soundIds m).Nodup
    simpa [addIds] using h
  | cons op rest ih =>
    intro m h
    exact ih _ (stepOp_nodup_inv tick hid m op rest h)

theorem length_filter_not_add (p : Sound → Bool) (l : List Sound) :
    (l.filter (fun a => !p a)).length + (l.filter p).length = l.length := by
  induction l with
  | nil => rfl
  | cons a rest ih =>
    by_cases h : p a = true <;> simp [List.filter_cons, h] <;> omega

theorem length_filter_key (k : String) (l : List Sound) :
    (l.filter (fun s => decide (s.key ≠ k))).length
      + (l.filter (fun s => decide (s.key = k))).length = l.length := by
  have hgen := length_filter_not_add (fun s : Sound => decide (s.key = k)) l
  simpa [ne_eq, decide_not] using hgen

theorem stepOp_size (tick : Sound → JSNum → JSNum → Sound)
    (m : BaseSoundManager) (op : MOp) :
    (stepOp tick m op).1.sounds.length + opRemoved m op + opReaped m op
      = m.sounds.length + opAdds op := by
  cases op with
  | addOp key nid =>
    simp [stepOp, add, opAdds, opRemoved, opReaped]
  | removeOp s =>
    by_cases h : s ∈ m.sounds
    · have hpos : 0 < m.sounds.length := List.length_pos_of_mem h
      simp only [stepOp, remove, if_pos h, opAdds, opRemoved, opReaped]
      have hlen : (m.sounds.erase s).length + 1 = m.sounds.length :=
        List.length_erase_add_one h
      omega
    · simp [stepOp, remove, h, opAdds, opRemoved, opReaped]
  | removeByKeyOp key =>
    show (removeByKey m key).1.sounds.length + (removeByKey m key).2.2 + 0
      = m.sounds.length + 0
    have h1 : (removeByKey m key).1.sounds =
        m.sounds.filter (fun s => decide (s.key ≠ key)) :=
      removeByKeyGo_survivors key m.sounds
    have h2 : (removeByKey m key).2.2 =
        (m.sounds.filter (fun s => decide (s.key = key))).length :=
      removeByKeyGo_count key m.sounds
    rw [h1, h2]
    have := length_filter_key key m.sounds
    omega
  | updateOp t dt =>
    show (update m tick t dt).1.sounds.length + 0
        + (m.sounds.length - (reapPending m.sounds).length)
      = m.sounds.length + 0
    have h1 : (update m tick t dt).1.sounds.length
        = (reapPending m.sounds).length := by
      show ((reapPending m.sounds).map _).length = _
      rw [List.length_map]
    have h2 : (reapPending m.sounds).length ≤ m.sounds.length := by
      rw [reapPending_eq_filter]
      exact List.length_filter_le _ _
    omega
  | endedOp sid =>
    show (m.sounds.map _).length + 0 + 0 = m.sounds.length + 0
    rw [List.length_map]

theorem runCount_size (tick : Sound → JSNum → JSNum → Sound) :
    ∀ (ops : List MOp) (m : BaseSoundManager),
    (runCount tick m ops).1.sounds.length + (runCount tick m ops).2.2.1
        + (runCount tick m ops).2.2.2
      = m.sounds.length + (runCount tick m ops).2.1 := by
  intro ops
  induction ops with
  | nil =>
    intro m
    simp [runCount]
  | cons op rest ih =>
    intro m
    have hstep := stepOp_size tick m op
    have h2 := ih (stepOp tick m op).1
    show (runCount tick (stepOp tick m op).1 rest).1.sounds.length
        + (opRemoved m op + (runCount tick (stepOp tick m op).1 rest).2.2.1)
        + (opReaped m op + (runCount tick (stepOp tick m op).1 rest).2.2.2)
      = m.sounds.length
        + (opAdds op + (runCount tick (stepOp tick m op).1 rest).2.1)
    omega

theorem stepOp_departure (tick : Sound → JSNum → JSNum → Sound)
    (hid : ∀ s a b, (tick s a b).id = s.id) (m : BaseSoundManager) (op : MOp) :
    ∀ s ∈ m.sounds, s.id ∉ soundIds (stepOp tick m op).1 →
      Effect.destroySound s ∈ (stepOp tick m op).2 ∨ s.pendingRemove = true := by
  intro s hs hgone
  cases op with
  | addOp key nid =>
    exact absurd (by
      rw [soundIds_stepOp_addOp]
      exact List.mem_append_left _ (List.mem_map.2 ⟨s, hs, rfl⟩)) hgone
  | removeOp s' =>
    by_cases h : s' ∈ m.sounds
    · by_cases hss : s = s'
      · subst hss
        left
        show Effect.destroySound s ∈ (remove m s).2.1
        simp [remove, h]
      · exact absurd (by
          show s.id ∈ soundIds (remove m s').1
          simp only [remove, if_pos h]
          exact List.mem_map.2 ⟨s, (List.mem_erase_of_ne hss).2 hs, rfl⟩) hgone
    · exact absurd (by
        show s.id ∈ soundIds (remove m s').1
        simp only [remove, if_neg h]
        exact List.mem_map.2 ⟨s, hs, rfl⟩) hgone
  | removeByKeyOp key =>
    by_cases hk : s.key = key
    · left
      show Effect.destroySound s ∈ (removeByKeyGo key m.sounds).2.1
      rw [removeByKeyGo_trace]
      exact List.mem_map.2
        ⟨s, List.mem_reverse.2 (List.mem_filter.2 ⟨hs, by simpa using hk⟩), rfl⟩
    · exact absurd (by
        show s.id ∈ ((removeByKeyGo key m.sounds).1).map (·.id)
        rw [removeByKeyGo_survivors]
        exact List.mem_map.2 ⟨s, List.mem_filter.2 ⟨hs, by simpa using hk⟩, rfl⟩) hgone
  | updateOp t dt =>
    by_cases hp : s.pendingRemove
    · right
      exact hp
    · exact absurd (by
        rw [show soundIds (stepOp tick m (.updateOp t dt)).1 =
            soundIds (update m tick t dt).1 from rfl,
          soundIds_update tick hid m t dt]
        exact List.mem_map.2 ⟨s, List.mem_filter.2 ⟨hs, by simp [hp]⟩, rfl⟩) hgone
  | endedOp sid =>
    exact absurd (by
      rw [show soundIds (stepOp tick m (.endedOp sid)).1 =
          soundIds (deliverSoundEnded m sid).1 from rfl,
        soundIds_deliverSoundEnded]
      exact List.mem_map.2 ⟨s, hs, rfl⟩) hgone

theorem runOps_take_succ (tick : Sound → JSNum → JSNum → Sound)
    (m : BaseSoundManager) (ops : List MOp) (n : Nat) (h : n < ops.length) :
    runOps tick m (ops.take (n + 1))
      = (stepOp tick (runOps tick m (ops.take n)) (ops.get ⟨n, h⟩)).1 := by
  rw [List.take_succ]
  have hg : ops[n]? = some (ops.get ⟨n, h⟩) := by
    rw [← List.get?_eq_getElem?]
    exact List.get?_eq_get h
  rw [hg, runOps_append]
  rfl

/-- C8: over any sequence of manager operations (sound registrations with
fresh identities, `remove`, `removeByKey`, per-frame `update` with an
identity-preserving per-sound tick, and fire-and-forget auto-destroys),
starting from a new manager: no sound identity ever appears twice in the
registry; the final registry size plus the sounds removed by
`remove`/`removeByKey` plus the sounds reaped by `update` equals the number
of registrations; and every sound an operation takes out of the registry
was destroyed — a `destroy` call appears in that operation's trace, or the
sound was already marked gone (`pendingRemove`, i.e. destroyed earlier). -/
theorem registry_invariants_spec (tick : Sound → JSNum → JSNum → Sound)
    (ops : List MOp)
    (hid : ∀ s a b, (tick s a b).id = s.id)
    (hadd : (addIds ops).Nodup) :
    (∀ n : Nat,
      (soundIds (runOps tick newBaseSoundManager (ops.take n))).Nodup) ∧
    ((runOps tick newBaseSoundManager ops).sounds.length
        + (runCount tick newBaseSoundManager ops).2.2.1
        + (runCount tick newBaseSoundManager ops).2.2.2
      = (runCount tick newBaseSoundManager ops).2.1) ∧
    (∀ (n : Nat) (h : n < ops.length),
      ∀ s ∈ (runOps tick newBaseSoundManager (ops.take n)).sounds,
        s.id ∉ soundIds (runOps tick newBaseSoundManager (ops.take (n + 1))) →
        Effect.destroySound s ∈
            (stepOp tick (runOps tick newBaseSoundManager (ops.take n))
              (ops.get ⟨n, h⟩)).2 ∨
        s.pendingRemove = true) := by
  refine ⟨?_, ?_, ?_⟩
  · intro n
    apply runOps_nodup tick hid
    have hsub : List.Sublist (addIds (ops.take n)) (addIds ops) := by
      conv_rhs => rw [← List.take_append_drop n ops]
      rw [addIds_append]
      exact List.sublist_append_left _ _
    have hnd := hsub.nodup hadd
    show (([] : List Nat) ++ addIds (ops.take n)).Nodup
    simpa using hnd
  · have h := runCount_size tick ops newBaseSoundManager
    rw [runCount_fst] at h
    simpa [newBaseSoundManager] using h
  · intro n h s hs hgone
    rw [runOps_take_succ tick newBaseSoundManager ops n h] at hgone
    exact stepOp_departure tick hid _ _ s hs hgone

/-- C8 witness: a concrete run — add two sounds, remove one, tick a frame —
with fresh registration ids and an identity-preserving tick. -/
theorem registry_invariants_spec_witness :
    (∀ (s : Sound) (a b : JSNum), (tickFlag s a b).id = s.id) ∧
    (addIds [MOp.addOp "x" 1, MOp.addOp "y" 2,
      MOp.removeOp ⟨1, "x", false, false, false⟩, MOp.updateOp 0 1]).Nodup ∧
    ((runOps tickFlag newBaseSoundManager
        [MOp.addOp "x" 1, MOp.addOp "y" 2,
          MOp.removeOp ⟨1, "x", false, false, false⟩,
          MOp.updateOp 0 1]).sounds.length
      + (runCount tickFlag newBaseSoundManager
          [MOp.addOp "x" 1, MOp.addOp "y" 2,
            MOp.removeOp ⟨1, "x", false, false, false⟩,
            MOp.updateOp 0 1]).2.2.1
      + (runCount tickFlag newBaseSoundManager
          [MOp.addOp "x" 1, MOp.addOp "y" 2,
            MOp.removeOp ⟨1, "x", false, false, false⟩,
            MOp.updateOp 0 1]).2.2.2
      = (runCount tickFlag newBaseSoundManager
          [MOp.addOp "x" 1, MOp.addOp "y" 2,
            MOp.removeOp ⟨1, "x", false, false, false⟩,
            MOp.updateOp 0 1]).2.1) := by
  refine ⟨fun s a b => rfl, by decide, ?_⟩
  exact (registry_invariants_spec tickFlag
    [MOp.addOp "x" 1, MOp.addOp "y" 2,
      MOp.removeOp ⟨1, "x", false, false, false⟩, MOp.updateOp 0 1]
    (fun s a b => rfl) (by decide)).2.1
